import Mathlib

/-!  A shallow embedding of `carmcmc/samplers.py` (class `MCMCSample`) and
proofs about its behaviour.

Machine floating-point values are modelled as exact rationals; a numpy scalar
is either a finite complex value or NaN.  The external `acor.acor` routine is
third-party code, so every definition that calls it takes it as a parameter.
Python exceptions are modelled with `Except`; the Python heap is explicit so
that object identity (`.copy()` semantics) can be expressed.
-/

namespace Wavepal

/-- A numpy scalar: a finite complex number (imaginary part 0 for reals), or
NaN as produced by `np.genfromtxt` on a token it cannot parse. -/
inductive PyNum where
  | c (re im : ℚ)
  | nan
  deriving DecidableEq, Repr

/-- numpy `.real`: the real part of a complex value; NaN stays NaN. -/
def PyNum.real : PyNum → PyNum
  | .c re _ => .c re 0
  | .nan => .nan

/-- Python exceptions raised on the analysed code paths. -/
inductive PyErr where
  | keyError (name : String)
  | indexError
  | valueError
  deriving DecidableEq, Repr

/-- A numpy array as used by `samplers.py`: 0-, 1- or 2-dimensional. -/
inductive NDArray where
  | zero (x : PyNum)
  | one (data : List PyNum)
  | two (rows : List (List PyNum))
  deriving DecidableEq, Repr

/-- numpy `shape`. -/
def NDArray.shape : NDArray → List ℕ
  | .zero _ => []
  | .one d => [d.length]
  | .two rows => [rows.length, (rows.headD []).length]

/-- `a.shape[i]`: raises IndexError when the array has fewer dimensions. -/
def shapeGet (a : NDArray) (i : ℕ) : Except PyErr ℕ :=
  match a.shape.get? i with
  | some n => .ok n
  | none => .error .indexError

/-- The Python heap restricted to numpy arrays, plus the `_samples` dict of an
`MCMCSample` object.  Names map to heap addresses, so that object identity and
in-place mutation can be talked about. -/
structure PyState where
  heap : List NDArray
  samples : List (String × ℕ)
  deriving DecidableEq, Repr

/-- The store of a freshly constructed `MCMCSample()`. -/
def pyEmpty : PyState := ⟨[], []⟩

/-- The address bound to `name` in `self._samples`, `none` when absent. -/
def lookupName (st : PyState) (name : String) : Option ℕ :=
  (st.samples.find? (fun e => e.1 == name)).map (fun e => e.2)

/-- The array object at a heap address (states only hold valid addresses). -/
def heapAt (st : PyState) (addr : ℕ) : NDArray :=
  st.heap.getD addr (.one [])

/-- In-place mutation of the array object at `addr`, as performed by a caller
writing into an array it was handed. -/
def setArr (st : PyState) (addr : ℕ) (a : NDArray) : PyState :=
  ⟨st.heap.set addr a, st.samples⟩

/-- `get_samples` (samplers.py 47-55): `return self._samples[name].copy()`.
Raises KeyError when the name is absent; otherwise allocates a fresh copy of
the stored array and returns its address. -/
def get_samples (st : PyState) (name : String) : Except PyErr (PyState × ℕ) :=
  match lookupName st name with
  | none => .error (.keyError name)
  | some addr => .ok (⟨st.heap ++ [heapAt st addr], st.samples⟩, st.heap.length)

/-- One whitespace-delimited token of a data row of an ascii source. -/
inductive Token where
  | num (q : ℚ)
  | word (s : String)
  deriving DecidableEq, Repr

/-- `np.genfromtxt` float conversion: an unparsable token becomes NaN. -/
def parseTok : Token → PyNum
  | .num q => .c q 0
  | .word _ => .nan

/-- `np.genfromtxt(fname, skip_header=1)` applied to the data rows: blank lines
are skipped; with all remaining rows of one length the result is a 0-d array
(single value), a 1-D array (single row, or single column) or a 2-D array;
rows of differing lengths raise ValueError; an input with no data rows yields
an empty 1-D array (numpy only emits a warning).  Unparsable tokens become
NaN, never an exception. -/
def genfromtxt (body : List (List Token)) : Except PyErr NDArray :=
  match body.filter (fun r => !r.isEmpty) with
  | [] => .ok (.one [])
  | [[t]] => .ok (.zero (parseTok t))
  | [r] => .ok (.one (r.map parseTok))
  | r :: rs =>
      if rs.all (fun row => row.length == r.length) then
        if r.length == 1 then
          .ok (.one ((r :: rs).map (fun row => parseTok (row.headD (Token.word (""))))))
        else
          .ok (.two ((r :: rs).map (fun row => row.map parseTok)))
      else
        .error .valueError

/-- An ascii source file: the text of its first line (the parameter-name
header), whether that line ends in a line terminator, and the tokenized data
rows after it. -/
structure AsciiFile where
  firstLine : String
  terminated : Bool
  body : List (List Token)
  deriving DecidableEq, Repr

/-- `file.readline()`: the first line, including its trailing newline whenever
the line is terminated. -/
def readline (f : AsciiFile) : String :=
  f.firstLine ++ (if f.terminated then "\n" else "")

/-- `generate_from_file` (samplers.py 57-72): for each file in order, read the
header line as the parameter name, parse the remaining rows with `genfromtxt`,
and store the parsed array under the name unless the name is already present
(first write wins).  A parse exception propagates out of the loop, keeping the
writes already performed. -/
def generate_from_file (st : PyState) : List AsciiFile → PyState × Option PyErr
  | [] => (st, none)
  | f :: fs =>
      match genfromtxt f.body with
      | .error e => (st, some e)
      | .ok trace =>
          match lookupName st (readline f) with
          | some _ => generate_from_file st fs
          | none =>
              generate_from_file
                ⟨st.heap ++ [trace], st.samples ++ [(readline f, st.heap.length)]⟩ fs

/-- One step of `newaxis`: if the named entry is a 1-D array, rebind the name
to a fresh (N × 1) column matrix. -/
def newaxisStep (st : PyState) (nm : String) : PyState :=
  match lookupName st nm with
  | none => st
  | some addr =>
      match heapAt st addr with
      | .one d =>
          ⟨st.heap ++ [.two (d.map (fun x => [x]))],
           st.samples.map (fun e => if e.1 == nm then (e.1, st.heap.length) else e)⟩
      | _ => st

/-- `newaxis` (samplers.py 427-430): reshape every 1-D stored trace to a
(N × 1) matrix. -/
def newaxis (st : PyState) : PyState :=
  (st.samples.map (fun e => e.1)).foldl newaxisStep st

/-- The type of the external `acor.acor` routine: a real sequence is mapped to
the triple (tau, mean, sigma).  It is third-party code (the `acor` package),
so every use is parameterized over it. -/
abbrev AcorFn := List PyNum → PyNum × PyNum × PyNum

/-- `trace[:, i]` for a 2-D array. -/
def column (rows : List (List PyNum)) (i : ℕ) : List PyNum :=
  rows.map (fun r => r.getD i (PyNum.c 0 0))

/-- `autocorr_timescale` (samplers.py 74-84): loops over
`range(trace.shape[1])` (so `trace.shape[1]` raises IndexError unless the
array is 2-D) and feeds each column, coerced by numpy `.real`, to `acor.acor`,
collecting the tau components in order. -/
def autocorr_timescale (acorFn : AcorFn) : NDArray → Except PyErr (List PyNum)
  | .two rows =>
      .ok ((List.range (rows.headD []).length).map
        (fun i => (acorFn ((column rows i).map PyNum.real)).1))
  | _ => .error .indexError

/-- numpy scalar division `n / t`, for the `npts / timescale` expression.
numpy would produce ±inf on a zero divisor; infinities are outside this model
and that case is mapped to NaN (no analysed property depends on it). -/
def pyDiv (n : ℚ) : PyNum → PyNum
  | .c re im =>
      if re = 0 ∧ im = 0 then .nan
      else .c (n * re / (re * re + im * im)) (-(n * im) / (re * re + im * im))
  | .nan => .nan

/-- `effective_samples` (samplers.py 86-101): prints a warning and returns
`None` when the name is absent; otherwise returns
`traces.shape[0] / autocorr_timescale(traces)` elementwise. -/
def effective_samples (acorFn : AcorFn) (st : PyState) (name : String) :
    Except PyErr (Option (List PyNum)) :=
  match lookupName st name with
  | none => .ok none
  | some addr =>
      match shapeGet (heapAt st addr) 0 with
      | .error e => .error e
      | .ok npts =>
          match autocorr_timescale acorFn (heapAt st addr) with
          | .error e => .error e
          | .ok timescale => .ok (some (timescale.map (pyDiv (npts : ℚ))))

/-- Which branch of `posterior_summaries` produced the report. -/
inductive Branch where
  | scalar
  | vector
  deriving DecidableEq, Repr

/-- `posterior_summaries` (samplers.py 393-425): `self._samples[name]` (KeyError
when absent), then `effective_samples`, then the scalar branch for 1-D traces
and the per-column branch otherwise.  The printed statistics are pure
reductions with no failure modes relevant to the analysed properties. -/
def posterior_summaries (acorFn : AcorFn) (st : PyState) (name : String) :
    Except PyErr Branch :=
  match lookupName st name with
  | none => .error (.keyError name)
  | some addr =>
      match effective_samples acorFn st name with
      | .error e => .error e
      | .ok _ =>
          match heapAt st addr with
          | .one _ => .ok .scalar
          | _ => .ok .vector

/-- `hist.min()` over the raveled density grid (grids are nonempty). -/
def histMin : List ℚ → ℚ
  | [] => 0
  | x :: xs => xs.foldl min x

/-- `hist.max()` over the raveled density grid. -/
def histMax : List ℚ → ℚ
  | [] => 0
  | x :: xs => xs.foldl max x

/-- `hist[hist>=level].sum()`. -/
def massAbove (hist : List ℚ) (level : ℚ) : ℚ :=
  (hist.filter (fun x => decide (level ≤ x))).sum

/-- The bisection objective of `plot_2dkde` (samplers.py 241):
`hist[hist>=level].sum()/hist.sum() - frac`. -/
def hfrac (hist : List ℚ) (frac level : ℚ) : ℚ :=
  massAbove hist level / hist.sum - frac

/-- The iteration of `scipy.optimize.bisect`, fuel-indexed by the iteration
budget (`maxiter`).  scipy's xtol-based early exit returns the current
midpoint, as does fuel exhaustion here, so it is subsumed by quantifying over
the fuel. -/
def bisectLoop (f : ℚ → ℚ) : ℕ → ℚ → ℚ → ℚ → ℚ
  | 0, a, b, _ => (a + b) / 2
  | n + 1, a, b, fa =>
      let m := (a + b) / 2
      let fm := f m
      if fm = 0 then m
      else if fa * fm < 0 then bisectLoop f n a m fa
      else bisectLoop f n m b fm

/-- `scipy.optimize.bisect(f, a, b)`: raises ValueError («f(a) and f(b) must
have different signs») unless the endpoint values bracket a sign change. -/
def bisect (f : ℚ → ℚ) (a b : ℚ) (n : ℕ) : Except PyErr ℚ :=
  let fa := f a
  let fb := f b
  if 0 < fa * fb then .error .valueError
  else if fa = 0 then .ok a
  else if fb = 0 then .ok b
  else .ok (bisectLoop f n a b fa)

/-- The target mass fractions of `plot_2dkde`, iterated outermost contour
first (samplers.py 240). -/
def defaultFracs : List ℚ := [9973/10000, 9545/10000, 6827/10000]

/-- The body of the contour-level loop (samplers.py 239-243). -/
def clevelsAux (hist : List ℚ) (n : ℕ) : List ℚ → List ℚ → Except PyErr (List ℚ)
  | acc, [] => .ok acc
  | acc, frac :: fracs =>
      match bisect (hfrac hist frac) (histMin hist) (histMax hist) n with
      | .error e => .error e
      | .ok level => clevelsAux hist n (acc ++ [level]) fracs

/-- The contour-level computation of `plot_2dkde` (samplers.py 239-243). -/
def clevels (hist : List ℚ) (n : ℕ) : Except PyErr (List ℚ) :=
  clevelsAux hist n [] defaultFracs

/-- A matplotlib contour path, abstracted to its point-containment test (the
geometry primitive the straggler step consumes). -/
structure CPath where
  contains : ℚ × ℚ → Bool

/-- `cont.collections[0]._paths`: the polygon paths of the first (outermost)
contour level. -/
def outerPaths (collections : List (List CPath)) : List CPath :=
  collections.headD []

/-- The straggler collection of `plot_2dkde` (samplers.py 264-273): the
observed points `(trace1[i], trace2[i])` contained by no path of the
outermost level. -/
def straggler_points (collections : List (List CPath)) (t1 t2 : List ℚ) :
    List (ℚ × ℚ) :=
  (t1.zip t2).filter (fun p => !((outerPaths collections).any (fun o => o.contains p)))

/-- A concrete stand-in for the external `acor.acor` routine, used when the
analysed behaviour must be evaluated on a concrete input. -/
def acorStub : AcorFn := fun _ => (PyNum.c 1 0, PyNum.c 0 0, PyNum.c 0 0)

/-- The array content a `get_samples` result gives access to. -/
def exceptContent : Except PyErr (PyState × ℕ) → Option NDArray
  | .ok pr => some (heapAt pr.1 pr.2)
  | .error _ => none

/-- The address (object identity) a `get_samples` result hands out. -/
def exceptAddr : Except PyErr (PyState × ℕ) → Option ℕ
  | .ok pr => some pr.2
  | .error _ => none

/-- The level the embedded bisection returns on the grid `[1, 3]` for the
outermost default mass fraction with a budget of 100 iterations. -/
def c2level : ℚ := 1 + 1 / 2 ^ 100

/-! ## Helper lemmas -/

theorem wv_getD_append_lt {α : Type} (l l' : List α) (i : ℕ) (d : α)
    (h : i < l.length) : (l ++ l').getD i d = l.getD i d := by
  simp [List.getD, List.getElem?_append, h]

theorem wv_getD_append_self {α : Type} (l : List α) (x d : α) :
    (l ++ [x]).getD l.length d = x := by
  simp [List.getD_append_right]

theorem wv_getD_set_ne {α : Type} (l : List α) (i j : ℕ) (v d : α) (h : i ≠ j) :
    (l.set i v).getD j d = l.getD j d := by
  simp [List.getD, List.getElem?_set_ne h]

theorem wv_find?_append_none {α : Type} (p : α → Bool) (l₁ l₂ : List α)
    (h : l₁.find? p = none) : (l₁ ++ l₂).find? p = l₂.find? p := by
  rw [List.find?_append, h]; rfl

theorem PyNum.real_real (x : PyNum) : x.real.real = x.real := by
  cases x <;> rfl

theorem column_map_real (rows : List (List PyNum)) (i : ℕ) :
    (column (rows.map (fun r => r.map PyNum.real)) i).map PyNum.real
      = (column rows i).map PyNum.real := by
  simp only [column, List.map_map]
  refine List.map_congr_left (fun r _ => ?_)
  show ((r.map PyNum.real).getD i (PyNum.c 0 0)).real = (r.getD i (PyNum.c 0 0)).real
  have h2 : (r.map PyNum.real).getD i ((PyNum.c 0 0).real)
      = (r.getD i (PyNum.c 0 0)).real := by
    simp [List.getD_map]
  rw [show (PyNum.c 0 0) = (PyNum.c 0 0).real from rfl, h2, PyNum.real_real]
  rfl

/-! ## Claim theorems -/

/-- Claim C1: for a stored 2-D trace of N iterations, `effective_samples`
returns exactly the ordered sequence of per-dimension values N / tau, where
the tau sequence is the output of `autocorr_timescale` on the stored trace. -/
theorem effective_samples_div (acorFn : AcorFn) (st : PyState) (name : String)
    (addr : ℕ) (rows : List (List PyNum))
    (h1 : lookupName st name = some addr) (h2 : heapAt st addr = .two rows) :
    ∃ taus : List PyNum,
      autocorr_timescale acorFn (heapAt st addr) = .ok taus ∧
      effective_samples acorFn st name
        = .ok (some (taus.map (pyDiv (rows.length : ℚ)))) := by
  refine ⟨(List.range (rows.headD []).length).map
      (fun i => (acorFn ((column rows i).map PyNum.real)).1), ?_, ?_⟩
  · rw [h2]; rfl
  · simp only [effective_samples, h1, h2]; rfl

/-- Witness for C1 at a concrete two-iteration, one-dimension store. -/
theorem effective_samples_div_witness :
    ∃ taus : List PyNum,
      autocorr_timescale acorStub
          (heapAt ⟨[.two [[.c 1 0], [.c 2 0]]], [(("p"), 0)]⟩ 0) = .ok taus ∧
      effective_samples acorStub ⟨[.two [[.c 1 0], [.c 2 0]]], [(("p"), 0)]⟩ ("p")
        = .ok (some (taus.map (pyDiv (((2 : ℕ)) : ℚ)))) :=
  effective_samples_div acorStub ⟨[.two [[.c 1 0], [.c 2 0]]], [(("p"), 0)]⟩ ("p")
    0 [[.c 1 0], [.c 2 0]] (by decide) (by decide)

/-- Claim C3: a point is collected as a straggler exactly when it is one of the
observed points and no polygon path of the outermost contour level (the first
collection) contains it; equivalently, it is classified inside when some path
of that level contains it. -/
theorem straggler_classification (collections : List (List CPath))
    (t1 t2 : List ℚ) (p : ℚ × ℚ) :
    p ∈ straggler_points collections t1 t2 ↔
      p ∈ t1.zip t2 ∧ ∀ o ∈ outerPaths collections, o.contains p = false := by
  simp [straggler_points, List.mem_filter]

/-- Claim C4 (amended): for a name absent from the store, `get_samples` and
`posterior_summaries` raise KeyError, but `effective_samples` prints a warning
and returns None — a silent no-value fallback, not an error. -/
theorem absent_name_behavior (acorFn : AcorFn) (st : PyState) (name : String)
    (h : lookupName st name = none) :
    get_samples st name = .error (.keyError name) ∧
    posterior_summaries acorFn st name = .error (.keyError name) ∧
    effective_samples acorFn st name = .ok none := by
  refine ⟨?_, ?_, ?_⟩
  · simp only [get_samples, h]
  · simp only [posterior_summaries, h]
  · simp only [effective_samples, h]

/-- Witness for (amended) C4 at the empty store. -/
theorem absent_name_behavior_witness :
    get_samples pyEmpty ("a") = .error (.keyError ("a")) ∧
    posterior_summaries acorStub pyEmpty ("a") = .error (.keyError ("a")) ∧
    effective_samples acorStub pyEmpty ("a") = .ok none :=
  absent_name_behavior acorStub pyEmpty ("a") rfl

/-- Counterexample to C4 as stated: on the empty store, the query
`effective_samples` for the absent name "a" does not fail — it returns
nothing (Python None), the silent fallback the claim rules out. -/
theorem effective_samples_silent_cex :
    effective_samples acorStub pyEmpty ("a") = .ok none := rfl

/-- Claim C7: evaluating ingestion at a source whose second data column is the
non-numeric token "abc" — the code raises nothing and stores the NaN-laden
matrix, where the claim requires a MalformedTableError leaving the store
unchanged. -/
theorem ingestion_tolerates_malformed :
    generate_from_file pyEmpty
        [⟨"alpha", true, [[Token.num 1, Token.word ("abc")], [Token.num 2, Token.num 3]]⟩]
      = (⟨[.two [[.c 1 0, .nan], [.c 2 0, .c 3 0]]], [("alpha\n", 0)]⟩, none) := by
  decide

/-- Claim C8 (amended): `autocorr_timescale` does not reject complex input; it
coerces every column to its real part (numpy `.real`) before calling the
estimator, so its output is computed from the coerced real sequences and is
unchanged when every entry is replaced by its real part. -/
theorem autocorr_real_coercion (acorFn : AcorFn) (rows : List (List PyNum)) :
    autocorr_timescale acorFn (.two rows)
        = .ok ((List.range (rows.headD []).length).map
            (fun i => (acorFn ((column rows i).map PyNum.real)).1)) ∧
    autocorr_timescale acorFn (.two (rows.map (fun r => r.map PyNum.real)))
        = autocorr_timescale acorFn (.two rows) := by
  constructor
  · rfl
  · have hlen : ((rows.map (fun r => r.map PyNum.real)).headD []).length
        = (rows.headD []).length := by
      cases rows <;> simp
    simp only [autocorr_timescale, hlen, column_map_real]

/-- Counterexample to C8 as stated: a trace whose entries all have nonzero
imaginary part is processed without any failure. -/
theorem autocorr_complex_cex :
    autocorr_timescale acorStub (.two [[PyNum.c 0 1], [PyNum.c 1 2], [PyNum.c 2 1]])
      = .ok [PyNum.c 1 0] := rfl

/-- Claim C10: on a stored 1-D (not yet normalized) trace, `autocorr_timescale`
and `effective_samples` fail with IndexError (from `trace.shape[1]`), and
`posterior_summaries` propagates that failure, so its scalar-parameter branch
is never reached without prior dimensionality normalization. -/
theorem oneDim_errors (acorFn : AcorFn) (st : PyState) (name : String)
    (addr : ℕ) (data : List PyNum)
    (h1 : lookupName st name = some addr) (h2 : heapAt st addr = .one data) :
    autocorr_timescale acorFn (heapAt st addr) = .error .indexError ∧
    effective_samples acorFn st name = .error .indexError ∧
    posterior_summaries acorFn st name = .error .indexError ∧
    posterior_summaries acorFn st name ≠ .ok .scalar := by
  have he : effective_samples acorFn st name = .error .indexError := by
    simp only [effective_samples, h1, h2]; rfl
  have hp : posterior_summaries acorFn st name = .error .indexError := by
    simp only [posterior_summaries, h1, he]
  refine ⟨by rw [h2]; rfl, he, hp, by rw [hp]; simp⟩

/-- Witness for C10 at a concrete store holding a flat two-sample trace. -/
theorem oneDim_errors_witness :
    autocorr_timescale acorStub
        (heapAt ⟨[.one [.c 1 0, .c 2 0]], [(("p"), 0)]⟩ 0) = .error .indexError ∧
    effective_samples acorStub ⟨[.one [.c 1 0, .c 2 0]], [(("p"), 0)]⟩ ("p")
      = .error .indexError ∧
    posterior_summaries acorStub ⟨[.one [.c 1 0, .c 2 0]], [(("p"), 0)]⟩ ("p")
      = .error .indexError ∧
    posterior_summaries acorStub ⟨[.one [.c 1 0, .c 2 0]], [(("p"), 0)]⟩ ("p")
      ≠ .ok .scalar :=
  oneDim_errors acorStub ⟨[.one [.c 1 0, .c 2 0]], [(("p"), 0)]⟩ ("p")
    0 [.c 1 0, .c 2 0] (by decide) (by decide)

/-- Claim C5: ingestion is first-write-wins.  For a source that parses, if the
header name is already bound in the store the whole state is left unchanged
(re-ingestion is a no-op); if it is not yet bound, the parsed matrix is
allocated and bound to the name. -/
theorem first_write_wins (st : PyState) (f : AsciiFile) (tr : NDArray)
    (hok : genfromtxt f.body = .ok tr) :
    ((lookupName st (readline f)).isSome → generate_from_file st [f] = (st, none)) ∧
    (lookupName st (readline f) = none →
      generate_from_file st [f]
          = (⟨st.heap ++ [tr], st.samples ++ [(readline f, st.heap.length)]⟩, none) ∧
      lookupName
          (⟨st.heap ++ [tr], st.samples ++ [(readline f, st.heap.length)]⟩ : PyState)
          (readline f) = some st.heap.length ∧
      heapAt (⟨st.heap ++ [tr], st.samples ++ [(readline f, st.heap.length)]⟩ : PyState)
          st.heap.length = tr) := by
  constructor
  · intro h
    obtain ⟨a, ha⟩ := Option.isSome_iff_exists.mp h
    simp only [generate_from_file, hok, ha]
  · intro h
    have hf : st.samples.find? (fun e => e.1 == readline f) = none := by
      rw [lookupName] at h
      exact Option.map_eq_none'.mp h
    refine ⟨by simp only [generate_from_file, hok, h], ?_, ?_⟩
    · rw [lookupName]
      simp only
      rw [wv_find?_append_none _ _ _ hf]
      simp [List.find?]
    · exact wv_getD_append_self st.heap tr (.one [])

/-- Witness for C5 at a store already holding the name "p\n" and a source
carrying the same header. -/
theorem first_write_wins_witness :
    ((lookupName ⟨[.one [.c 1 0]], [(("p\n"), 0)]⟩
        (readline ⟨"p", true, [[Token.num 2], [Token.num 3]]⟩)).isSome →
      generate_from_file ⟨[.one [.c 1 0]], [(("p\n"), 0)]⟩
          [⟨"p", true, [[Token.num 2], [Token.num 3]]⟩]
        = (⟨[.one [.c 1 0]], [(("p\n"), 0)]⟩, none)) ∧
    (lookupName ⟨[.one [.c 1 0]], [(("p\n"), 0)]⟩
        (readline ⟨"p", true, [[Token.num 2], [Token.num 3]]⟩) = none →
      generate_from_file ⟨[.one [.c 1 0]], [(("p\n"), 0)]⟩
          [⟨"p", true, [[Token.num 2], [Token.num 3]]⟩]
          = (⟨[.one [.c 1 0]] ++ [.one [.c 2 0, .c 3 0]],
              [(("p\n"), 0)] ++ [(readline ⟨"p", true, [[Token.num 2], [Token.num 3]]⟩, 1)]⟩,
             none) ∧
      lookupName
          (⟨[.one [.c 1 0]] ++ [.one [.c 2 0, .c 3 0]],
            [(("p\n"), 0)] ++ [(readline ⟨"p", true, [[Token.num 2], [Token.num 3]]⟩, 1)]⟩ :
            PyState)
          (readline ⟨"p", true, [[Token.num 2], [Token.num 3]]⟩) = some 1 ∧
      heapAt
          (⟨[.one [.c 1 0]] ++ [.one [.c 2 0, .c 3 0]],
            [(("p\n"), 0)] ++ [(readline ⟨"p", true, [[Token.num 2], [Token.num 3]]⟩, 1)]⟩ :
            PyState) 1 = .one [.c 2 0, .c 3 0]) :=
  first_write_wins ⟨[.one [.c 1 0]], [(("p\n"), 0)]⟩
    ⟨"p", true, [[Token.num 2], [Token.num 3]]⟩ (.one [.c 2 0, .c 3 0]) rfl

/-- Claim C6: `get_samples` returns a defensive copy.  The copy has the stored
content but a fresh identity; the store (dict and stored array) is unchanged;
a repeated call returns the same content at yet another fresh identity; and
after mutating the returned copy arbitrarily, a subsequent `get_samples` still
yields the original content. -/
theorem get_samples_copy (st : PyState) (name : String) (addr : ℕ) (v : NDArray)
    (h1 : lookupName st name = some addr) (h2 : addr < st.heap.length) :
    ∃ st' : PyState, ∃ r : ℕ,
      get_samples st name = .ok (st', r) ∧
      heapAt st' r = heapAt st addr ∧
      r ≠ addr ∧
      st'.samples = st.samples ∧
      heapAt st' addr = heapAt st addr ∧
      exceptContent (get_samples st' name) = some (heapAt st addr) ∧
      exceptAddr (get_samples st' name) ≠ some r ∧
      exceptContent (get_samples (setArr st' r v) name) = some (heapAt st addr) := by
  refine ⟨⟨st.heap ++ [heapAt st addr], st.samples⟩, st.heap.length, ?_, ?_, ?_, rfl, ?_, ?_, ?_, ?_⟩
  · simp only [get_samples, h1]
  · exact wv_getD_append_self st.heap (heapAt st addr) (.one [])
  · exact Nat.ne_of_gt h2
  · exact wv_getD_append_lt st.heap [heapAt st addr] addr (.one []) h2
  · have hl : lookupName (⟨st.heap ++ [heapAt st addr], st.samples⟩ : PyState) name
        = some addr := h1
    simp only [get_samples, hl, exceptContent]
    rw [show heapAt (⟨(st.heap ++ [heapAt st addr])
          ++ [heapAt (⟨st.heap ++ [heapAt st addr], st.samples⟩ : PyState) addr],
          st.samples⟩ : PyState) (st.heap ++ [heapAt st addr]).length
        = heapAt (⟨st.heap ++ [heapAt st addr], st.samples⟩ : PyState) addr from
      wv_getD_append_self _ _ _]
    rw [show heapAt (⟨st.heap ++ [heapAt st addr], st.samples⟩ : PyState) addr
        = heapAt st addr from wv_getD_append_lt st.heap [heapAt st addr] addr (.one []) h2]
  · have hl : lookupName (⟨st.heap ++ [heapAt st addr], st.samples⟩ : PyState) name
        = some addr := h1
    simp only [get_samples, hl, exceptAddr]
    intro hcon
    have : (st.heap ++ [heapAt st addr]).length = st.heap.length :=
      Option.some_injective _ hcon
    simp [List.length_append] at this
  · show exceptContent (get_samples
        (⟨(st.heap ++ [heapAt st addr]).set st.heap.length v, st.samples⟩ : PyState) name)
      = some (heapAt st addr)
    have hl : lookupName
        (⟨(st.heap ++ [heapAt st addr]).set st.heap.length v, st.samples⟩ : PyState) name
        = some addr := h1
    simp only [get_samples, hl, exceptContent]
    rw [show heapAt (⟨((st.heap ++ [heapAt st addr]).set st.heap.length v)
          ++ [heapAt (⟨(st.heap ++ [heapAt st addr]).set st.heap.length v,
                st.samples⟩ : PyState) addr], st.samples⟩ : PyState)
          ((st.heap ++ [heapAt st addr]).set st.heap.length v).length
        = heapAt (⟨(st.heap ++ [heapAt st addr]).set st.heap.length v,
            st.samples⟩ : PyState) addr from wv_getD_append_self _ _ _]
    rw [show heapAt (⟨(st.heap ++ [heapAt st addr]).set st.heap.length v,
          st.samples⟩ : PyState) addr
        = (st.heap ++ [heapAt st addr]).getD addr (.one []) from
      wv_getD_set_ne _ _ _ _ _ (Nat.ne_of_gt h2)]
    rw [wv_getD_append_lt st.heap [heapAt st addr] addr (.one []) h2]
    rfl

/-- Witness for C6 at a one-entry store, mutating the copy to a fresh array. -/
theorem get_samples_copy_witness :
    ∃ st' : PyState, ∃ r : ℕ,
      get_samples ⟨[.one [.c 5 0]], [(("p"), 0)]⟩ ("p") = .ok (st', r) ∧
      heapAt st' r = heapAt ⟨[.one [.c 5 0]], [(("p"), 0)]⟩ 0 ∧
      r ≠ 0 ∧
      st'.samples = (⟨[.one [.c 5 0]], [(("p"), 0)]⟩ : PyState).samples ∧
      heapAt st' 0 = heapAt ⟨[.one [.c 5 0]], [(("p"), 0)]⟩ 0 ∧
      exceptContent (get_samples st' ("p"))
        = some (heapAt ⟨[.one [.c 5 0]], [(("p"), 0)]⟩ 0) ∧
      exceptAddr (get_samples st' ("p")) ≠ some r ∧
      exceptContent (get_samples (setArr st' r (.one [.c 9 0, .c 9 0])) ("p"))
        = some (heapAt ⟨[.one [.c 5 0]], [(("p"), 0)]⟩ 0) :=
  get_samples_copy ⟨[.one [.c 5 0]], [(("p"), 0)]⟩ ("p") 0 (.one [.c 9 0, .c 9 0])
    (by decide) (by decide)

/-- Claim C9: ingesting a file whose first (header) line is terminated stores
the trace under the header string as returned by `readline`, i.e. with the
trailing newline; querying with the bare name then raises KeyError. -/
theorem header_newline_key (st : PyState) (f : AsciiFile) (tr : NDArray)
    (hterm : f.terminated = true)
    (hok : genfromtxt f.body = .ok tr)
    (habs : lookupName st (f.firstLine ++ "\n") = none)
    (hbare : lookupName st f.firstLine = none) :
    lookupName (generate_from_file st [f]).1 (f.firstLine ++ "\n")
      = some st.heap.length ∧
    get_samples (generate_from_file st [f]).1 f.firstLine
      = .error (.keyError f.firstLine) := by
  have hrl : readline f = f.firstLine ++ "\n" := by simp [readline, hterm]
  have hstep : generate_from_file st [f]
      = (⟨st.heap ++ [tr], st.samples ++ [(f.firstLine ++ "\n", st.heap.length)]⟩, none) := by
    simp only [generate_from_file, hok, hrl, habs]
  have hfabs : st.samples.find? (fun e => e.1 == f.firstLine ++ "\n") = none := by
    rw [lookupName] at habs
    exact Option.map_eq_none'.mp habs
  have hfbare : st.samples.find? (fun e => e.1 == f.firstLine) = none := by
    rw [lookupName] at hbare
    exact Option.map_eq_none'.mp hbare
  have hne : ((f.firstLine ++ "\n") == f.firstLine) = false := by
    rw [beq_eq_false_iff_ne]
    intro hcon
    have hlen := congrArg String.length hcon
    rw [String.length_append] at hlen
    have hone : ("\n" : String).length = 1 := rfl
    omega
  constructor
  · rw [hstep]
    simp only [lookupName]
    rw [wv_find?_append_none _ _ _ hfabs]
    simp [List.find?]
  · rw [hstep]
    have hl : lookupName
        (⟨st.heap ++ [tr], st.samples ++ [(f.firstLine ++ "\n", st.heap.length)]⟩ : PyState)
        f.firstLine = none := by
      simp only [lookupName]
      rw [wv_find?_append_none _ _ _ hfbare]
      simp [List.find?, hne]
    simp only [get_samples, hl]

/-- Witness for C9: ingesting a terminated header "alpha" into the empty store
binds "alpha\n", and `get_samples` on the bare "alpha" raises KeyError. -/
theorem header_newline_key_witness :
    lookupName
        (generate_from_file pyEmpty [⟨"alpha", true, [[Token.num 1], [Token.num 2]]⟩]).1
        ("alpha" ++ "\n") = some 0 ∧
    get_samples
        (generate_from_file pyEmpty [⟨"alpha", true, [[Token.num 1], [Token.num 2]]⟩]).1
        ("alpha") = .error (.keyError ("alpha")) :=
  header_newline_key pyEmpty ⟨"alpha", true, [[Token.num 1], [Token.num 2]]⟩
    (.one [.c 1 0, .c 2 0]) rfl rfl (by decide) (by decide)

/-! ## Bisection lemmas for the contour engine -/

theorem wv_foldl_min_le (xs : List ℚ) : ∀ x : ℚ, xs.foldl min x ≤ x := by
  induction xs with
  | nil => intro x; exact le_refl x
  | cons y ys ih =>
      intro x
      calc (y :: ys).foldl min x = ys.foldl min (min x y) := rfl
        _ ≤ min x y := ih (min x y)
        _ ≤ x := min_le_left x y

theorem wv_le_foldl_max (xs : List ℚ) : ∀ x : ℚ, x ≤ xs.foldl max x := by
  induction xs with
  | nil => intro x; exact le_refl x
  | cons y ys ih =>
      intro x
      calc x ≤ max x y := le_max_left x y
        _ ≤ ys.foldl max (max x y) := ih (max x y)
        _ = (y :: ys).foldl max x := rfl

theorem histMin_le_histMax (hist : List ℚ) (h : hist ≠ []) :
    histMin hist ≤ histMax hist := by
  cases hist with
  | nil => exact absurd rfl h
  | cons x xs => exact le_trans (wv_foldl_min_le xs x) (wv_le_foldl_max xs x)

theorem wv_foldl_min_const : ∀ (t : List ℚ) (h : ℚ), (∀ y ∈ t, y = h) → t.foldl min h = h := by
  intro t
  induction t with
  | nil => intro h _; rfl
  | cons y ys ih =>
      intro h hall
      rw [List.foldl_cons, hall y (by simp), min_self]
      exact ih h (fun z hz => hall z (by simp [hz]))

theorem histMin_eq_of_all (hist : List ℚ) (c : ℚ) (hne : hist ≠ [])
    (hall : ∀ y ∈ hist, y = c) : histMin hist = c := by
  cases hist with
  | nil => exact absurd rfl hne
  | cons x xs =>
      have hx : x = c := hall x (List.mem_cons_self x xs)
      subst hx
      exact wv_foldl_min_const xs x (fun z hz => hall z (List.mem_cons_of_mem x hz))

theorem bisect_same_sign (f : ℚ → ℚ) (a b : ℚ) (n : ℕ) (h : 0 < f a * f b) :
    bisect f a b n = .error .valueError := by
  simp [bisect, h]

theorem bisectLoop_bracket (f : ℚ → ℚ) :
    ∀ (n : ℕ) (a b : ℚ), a ≤ b → f a * f b < 0 →
    ∃ lo hi, a ≤ lo ∧ lo ≤ bisectLoop f n a b (f a) ∧ bisectLoop f n a b (f a) ≤ hi ∧
      hi ≤ b ∧ hi - lo ≤ (b - a) / 2 ^ n ∧ f lo * f hi ≤ 0 := by
  intro n
  induction n with
  | zero =>
      intro a b hab h
      refine ⟨a, b, le_refl a, ?_, ?_, le_refl b, ?_, le_of_lt h⟩
      · show a ≤ (a + b) / 2
        linarith
      · show (a + b) / 2 ≤ b
        linarith
      · simp
  | succ n ih =>
      intro a b hab h
      by_cases hm : f ((a + b) / 2) = 0
      · have heq : bisectLoop f (n + 1) a b (f a) = (a + b) / 2 := by
          simp [bisectLoop, hm]
        refine ⟨(a + b) / 2, (a + b) / 2, by linarith, by rw [heq], by rw [heq], by linarith,
          ?_, by rw [hm]; simp⟩
        have hba : (0:ℚ) ≤ b - a := by linarith
        have hpow : (0:ℚ) < 2 ^ (n + 1) := by positivity
        have := div_nonneg hba (le_of_lt hpow)
        linarith
      · by_cases hs : f a * f ((a + b) / 2) < 0
        · have heq : bisectLoop f (n + 1) a b (f a) = bisectLoop f n a ((a + b) / 2) (f a) := by
            simp [bisectLoop, hm, hs]
          have hm2 : a ≤ (a + b) / 2 := by linarith
          obtain ⟨lo, hi, g1, g2, g3, g4, g5, g6⟩ := ih a ((a + b) / 2) hm2 hs
          refine ⟨lo, hi, g1, by rw [heq]; exact g2, by rw [heq]; exact g3, by linarith, ?_, g6⟩
          have hw : ((a + b) / 2 - a) / 2 ^ n = (b - a) / 2 ^ (n + 1) := by
            rw [pow_succ]; ring
          rw [hw] at g5
          exact g5
        · have hmb : f ((a + b) / 2) * f b < 0 := by
            have hge : 0 ≤ f a * f ((a + b) / 2) := not_lt.mp hs
            rcases mul_neg_iff.mp h with ⟨hpa, hnb⟩ | ⟨hna, hpb⟩
            · have hmge : 0 ≤ f ((a + b) / 2) := by
                by_contra hc
                push_neg at hc
                have := mul_neg_of_pos_of_neg hpa hc
                linarith
              have hm0 : 0 < f ((a + b) / 2) := lt_of_le_of_ne hmge (Ne.symm hm)
              exact mul_neg_of_pos_of_neg hm0 hnb
            · have hmle : f ((a + b) / 2) ≤ 0 := by
                by_contra hc
                push_neg at hc
                have := mul_neg_of_neg_of_pos hna hc
                linarith
              have hm0 : f ((a + b) / 2) < 0 := lt_of_le_of_ne hmle hm
              exact mul_neg_of_neg_of_pos hm0 hpb
          have heq : bisectLoop f (n + 1) a b (f a)
              = bisectLoop f n ((a + b) / 2) b (f ((a + b) / 2)) := by
            simp [bisectLoop, hm, hs]
          have hm2 : (a + b) / 2 ≤ b := by linarith
          obtain ⟨lo, hi, g1, g2, g3, g4, g5, g6⟩ := ih ((a + b) / 2) b hm2 hmb
          refine ⟨lo, hi, by linarith, by rw [heq]; exact g2, by rw [heq]; exact g3, g4, ?_, g6⟩
          have hw : (b - (a + b) / 2) / 2 ^ n = (b - a) / 2 ^ (n + 1) := by
            rw [pow_succ]; ring
          rw [hw] at g5
          exact g5

theorem bisect_bracket (f : ℚ → ℚ) (a b : ℚ) (n : ℕ) (hab : a ≤ b)
    (h : f a * f b ≤ 0) :
    ∃ L lo hi, bisect f a b n = .ok L ∧ a ≤ lo ∧ lo ≤ L ∧ L ≤ hi ∧ hi ≤ b ∧
      hi - lo ≤ (b - a) / 2 ^ n ∧ f lo * f hi ≤ 0 := by
  have hpow : (0:ℚ) < 2 ^ n := by positivity
  have hba : (0:ℚ) ≤ b - a := by linarith
  have hwid : (0:ℚ) ≤ (b - a) / 2 ^ n := div_nonneg hba (le_of_lt hpow)
  by_cases h2 : f a = 0
  · have h1 : ¬ (0 < f a * f b) := by rw [h2]; simp
    refine ⟨a, a, a, by simp [bisect, h1, h2], le_refl a, le_refl a, le_refl a, hab, ?_, ?_⟩
    · linarith
    · rw [h2]; simp
  · by_cases h3 : f b = 0
    · have h1 : ¬ (0 < f a * f b) := by rw [h3]; simp
      refine ⟨b, b, b, by simp [bisect, h1, h2, h3], hab, le_refl b, le_refl b, le_refl b,
        ?_, ?_⟩
      · linarith
      · rw [h3]; simp
    · have hlt : f a * f b < 0 := lt_of_le_of_ne h (mul_ne_zero h2 h3)
      have h1 : ¬ (0 < f a * f b) := not_lt.mpr (le_of_lt hlt)
      obtain ⟨lo, hi, g1, g2, g3, g4, g5, g6⟩ := bisectLoop_bracket f n a b hab hlt
      exact ⟨bisectLoop f n a b (f a), lo, hi, by simp [bisect, h1, h2, h3],
        g1, g2, g3, g4, g5, g6⟩

/-- Claim C2 (amended): for each default mass fraction, iterated outermost
first, the engine bisects the mass-fraction objective between the grid's
minimum and maximum density.  On an all-equal grid the endpoint values share a
strictly positive sign, so the bisection fails (scipy's generic ValueError —
no dedicated ContourConvergenceError exists); when the endpoint values bracket
a sign change, bisection returns a level inside a bracket of width
(max − min) / 2^n whose endpoints still straddle a sign change.  The achieved
mass fraction at the returned level need not equal the target within
tolerance, since the grid mass function is a step function. -/
theorem contour_bisection (hist : List ℚ) (n : ℕ) (hne : hist ≠ [])
    (hsum : 0 < hist.sum) :
    ((∀ x ∈ hist, x = histMax hist) → clevels hist n = .error .valueError) ∧
    (∀ frac ∈ defaultFracs,
      hfrac hist frac (histMin hist) * hfrac hist frac (histMax hist) ≤ 0 →
      ∃ L lo hi,
        bisect (hfrac hist frac) (histMin hist) (histMax hist) n = .ok L ∧
        histMin hist ≤ lo ∧ lo ≤ L ∧ L ≤ hi ∧ hi ≤ histMax hist ∧
        hi - lo ≤ (histMax hist - histMin hist) / 2 ^ n ∧
        hfrac hist frac lo * hfrac hist frac hi ≤ 0) := by
  constructor
  · intro hall
    have hminmax : histMin hist = histMax hist :=
      histMin_eq_of_all hist (histMax hist) hne hall
    have hmass : massAbove hist (histMax hist) = hist.sum := by
      unfold massAbove
      rw [List.filter_eq_self.mpr]
      intro a ha
      rw [hall a ha]
      simp
    have hval : hfrac hist (9973/10000) (histMax hist) = 1 - 9973/10000 := by
      unfold hfrac
      rw [hmass, div_self (ne_of_gt hsum)]
    have herr : bisect (hfrac hist (9973/10000)) (histMin hist) (histMax hist) n
        = .error .valueError := by
      rw [hminmax]
      apply bisect_same_sign
      rw [hval]
      norm_num
    simp only [clevels, defaultFracs, clevelsAux, herr]
  · intro frac _ hbr
    exact bisect_bracket (hfrac hist frac) (histMin hist) (histMax hist) n
      (histMin_le_histMax hist hne) hbr

/-- Witness for (amended) C2 on the two-cell grid [1, 3] with two iterations. -/
theorem contour_bisection_witness :
    ((∀ x ∈ ([1, 3] : List ℚ), x = histMax [1, 3]) →
      clevels [1, 3] 2 = .error .valueError) ∧
    (∀ frac ∈ defaultFracs,
      hfrac [1, 3] frac (histMin [1, 3]) * hfrac [1, 3] frac (histMax [1, 3]) ≤ 0 →
      ∃ L lo hi,
        bisect (hfrac [1, 3] frac) (histMin [1, 3]) (histMax [1, 3]) 2 = .ok L ∧
        histMin [1, 3] ≤ lo ∧ lo ≤ L ∧ L ≤ hi ∧ hi ≤ histMax [1, 3] ∧
        hi - lo ≤ (histMax [1, 3] - histMin [1, 3]) / 2 ^ 2 ∧
        hfrac [1, 3] frac lo * hfrac [1, 3] frac hi ≤ 0) :=
  contour_bisection [1, 3] 2 (by decide) (by norm_num [List.sum_cons, List.sum_nil])

theorem wv_hfrac_pair_low (x : ℚ) (hx : x ≤ 1) :
    hfrac [1, 3] (9973/10000) x = 27/10000 := by
  unfold hfrac massAbove
  have h3 : x ≤ (3:ℚ) := by linarith
  simp [List.filter_cons, List.filter_nil, hx, h3]
  norm_num

theorem wv_hfrac_pair_mid (x : ℚ) (hx1 : 1 < x) (hx3 : x ≤ 3) :
    hfrac [1, 3] (9973/10000) x = -(2473/10000) := by
  unfold hfrac massAbove
  have hx : ¬ x ≤ (1:ℚ) := not_le.mpr hx1
  simp [List.filter_cons, List.filter_nil, hx, hx3]
  norm_num

theorem wv_bisectLoop_pair : ∀ (n : ℕ) (b : ℚ), 1 < b → b ≤ 3 →
    bisectLoop (hfrac [1, 3] (9973/10000)) n 1 b (hfrac [1, 3] (9973/10000) 1)
      = 1 + (b - 1) / 2 ^ (n + 1) := by
  intro n
  induction n with
  | zero =>
      intro b h1 h3
      show (1 + b) / 2 = 1 + (b - 1) / 2 ^ 1
      rw [pow_one]
      ring
  | succ n ih =>
      intro b h1 h3
      have hm1 : (1:ℚ) < (1 + b) / 2 := by linarith
      have hm3 : (1 + b) / 2 ≤ (3:ℚ) := by linarith
      have hfm : hfrac [1, 3] (9973/10000) ((1 + b) / 2) = -(2473/10000) :=
        wv_hfrac_pair_mid _ hm1 hm3
      have hfa : hfrac [1, 3] (9973/10000) 1 = 27/10000 :=
        wv_hfrac_pair_low 1 (le_refl 1)
      have hne0 : ¬ (hfrac [1, 3] (9973/10000) ((1 + b) / 2) = 0) := by
        rw [hfm]; norm_num
      have hneg : hfrac [1, 3] (9973/10000) 1
          * hfrac [1, 3] (9973/10000) ((1 + b) / 2) < 0 := by
        rw [hfa, hfm]; norm_num
      have hstep : bisectLoop (hfrac [1, 3] (9973/10000)) (n + 1) 1 b
            (hfrac [1, 3] (9973/10000) 1)
          = bisectLoop (hfrac [1, 3] (9973/10000)) n 1 ((1 + b) / 2)
            (hfrac [1, 3] (9973/10000) 1) := by
        simp [bisectLoop, hne0, hneg]
      rw [hstep, ih ((1 + b) / 2) hm1 hm3]
      have hhalf : ((1 + b) / 2 - 1 : ℚ) = (b - 1) / 2 := by ring
      rw [hhalf, div_div, pow_succ (2:ℚ) (n + 1)]
      ring

/-- Counterexample to C2 as stated: on the grid [1, 3] with the outermost
default fraction 0.9973 the endpoint values bracket a sign change, the
bisection converges (100 iterations, scipy's maxiter) to 1 + 2⁻¹⁰⁰, yet the
mass fraction at or above the returned level misses the target by 0.2473 —
far outside any numerical tolerance — because the mass function is a step
function. -/
theorem contour_tolerance_cex :
    bisect (hfrac [1, 3] (9973/10000)) (histMin [1, 3]) (histMax [1, 3]) 100
        = .ok c2level ∧
    hfrac [1, 3] (9973/10000) c2level = -(2473/10000) := by
  have hmin : histMin [1, 3] = (1:ℚ) := by norm_num [histMin]
  have hmax : histMax [1, 3] = (3:ℚ) := by norm_num [histMax]
  have hfa : hfrac [1, 3] (9973/10000) 1 = 27/10000 :=
    wv_hfrac_pair_low 1 (le_refl 1)
  have hfb : hfrac [1, 3] (9973/10000) 3 = -(2473/10000) :=
    wv_hfrac_pair_mid 3 (by norm_num) (le_refl 3)
  constructor
  · rw [hmin, hmax]
    have h1 : ¬ (0 < hfrac [1, 3] (9973/10000) 1 * hfrac [1, 3] (9973/10000) 3) := by
      rw [hfa, hfb]; norm_num
    have h2 : ¬ (hfrac [1, 3] (9973/10000) 1 = 0) := by rw [hfa]; norm_num
    have h3 : ¬ (hfrac [1, 3] (9973/10000) 3 = 0) := by rw [hfb]; norm_num
    have hb : bisect (hfrac [1, 3] (9973/10000)) 1 3 100
        = .ok (bisectLoop (hfrac [1, 3] (9973/10000)) 100 1 3
            (hfrac [1, 3] (9973/10000) 1)) := by
      simp [bisect, h1, h2, h3]
    rw [hb, wv_bisectLoop_pair 100 3 (by norm_num) (le_refl 3)]
    have hv : (1:ℚ) + (3 - 1) / 2 ^ (100 + 1) = c2level := by
      unfold c2level
      rw [pow_succ]
      ring
    rw [hv]
  · have h1 : (1:ℚ) < c2level := by
      unfold c2level
      norm_num
    have h3 : c2level ≤ (3:ℚ) := by
      unfold c2level
      norm_num
    exact wv_hfrac_pair_mid c2level h1 h3

end Wavepal
